import Mathlib

/-!
Shallow embedding of the relevance-scoring core of the arxiv-reader
repository (`relevance_scorer.py`, `semantic_scorer.py`,
`citation_analyzer.py`), together with theorems settling the frozen
claims about it.

Scores are modelled as rationals (`ℚ`); Python sets of strings are
modelled as `Finset String`; the external embedding model and the
TF-IDF vectorizer are parameters (functions from text to similarity
values), since their numerics live outside the repository.
-/

namespace ArxivReader

/-- The paper record (`ArxivPaper` in `arxiv_client.py`); only the fields
the scoring core reads are kept. -/
structure Paper where
  id : String
  title : String
  summary : String
  authors : List String
  categories : List String
  deriving Repr, DecidableEq

/-- The clamp `max(0.0, min(1.0, x))` used throughout the scorer. -/
def clamp01 (x : ℚ) : ℚ := max 0 (min 1 x)

/-- A character matched by Python's `\w` (ASCII fragment). -/
def isWordChar (c : Char) : Bool := c.isAlphanum || c = '_'

/-- Embeds Python's `str.lower()` (structurally, over the character
list, so that concrete instances reduce in the kernel). -/
def toLowerStr (s : String) : String := String.mk (s.data.map Char.toLower)

/-- Embeds Python's `str.strip()`: drop whitespace from both ends. -/
def trimStr (s : String) : String :=
  String.mk
    (((s.data.dropWhile Char.isWhitespace).reverse.dropWhile
      Char.isWhitespace).reverse)

/-- The word tokens of a string: maximal runs of `\w` characters, i.e. the
result of `re.findall(r"\b\w+\b", s)`. -/
def wordsOf (s : String) : List String :=
  let step := fun (acc : List String × List Char) (c : Char) =>
    if isWordChar c then (acc.1, acc.2 ++ [c])
    else if acc.2 = [] then (acc.1, [])
    else (acc.1 ++ [String.mk acc.2], [])
  let fin := s.toList.foldl step ([], [])
  if fin.2 = [] then fin.1 else fin.1 ++ [String.mk fin.2]

/-- Embeds Python's substring test `pat in t`. -/
def strContains (t pat : String) : Bool :=
  t.toList.tails.any (fun suf => suf.take pat.toList.length == pat.toList)

/-- Embeds `RelevanceScorer._calculate_keyword_score`: for each keyword add 0.8 on an
exact phrase hit of the lowercased keyword in `text`, plus
`0.4 * |keyword words ∩ text words| / |keyword words|` when the word overlap
is positive; sum, divide by the keyword count, take `min` with 1. -/
def calcKeywordScore (keywords : List String) (text : String) : ℚ :=
  let textWords : Finset String := (wordsOf (toLowerStr text)).toFinset
  let score : ℚ := (keywords.map (fun kw =>
    let kwWords : Finset String := (wordsOf (toLowerStr kw)).toFinset
    let phraseHit : ℚ := if strContains text (toLowerStr kw) then 0.8 else 0
    let overlap : ℕ := (kwWords ∩ textWords).card
    let overlapHit : ℚ :=
      if 0 < overlap then 0.4 * ((overlap : ℚ) / (kwWords.card : ℚ)) else 0
    phraseHit + overlapHit)).sum
  min 1 (score / (keywords.length : ℚ))

/-- The main (top-level) category of a tag:
`cat.split(".")[0] if "." in cat else cat`. -/
def mainCat (s : String) : String :=
  String.mk (s.data.takeWhile (fun c => c ≠ '.'))

/-- The number of (paper tag, relevant tag) pairs sharing the same top-level
category prefix, as counted by the partial-credit loop of
`RelevanceScorer._calculate_category_score`. -/
def pairCount (paperCats rel : Finset String) : ℕ :=
  ∑ c in paperCats, (rel.filter (fun r => mainCat r = mainCat c)).card

/-- Embeds `RelevanceScorer._calculate_category_score`: 0 for an empty tag list;
`min(1, |rel ∩ tags| / |rel|)` when the intersection is non-empty; otherwise
`min(1, 0.5 * pairCount / |rel|)`. -/
def calcCategoryScore (rel : Finset String) (categories : List String) : ℚ :=
  if categories = [] then 0
  else
    let paperCats : Finset String := categories.toFinset
    let nMatches : ℕ := (rel ∩ paperCats).card
    if 0 < nMatches then min 1 ((nMatches : ℚ) / (rel.card : ℚ))
    else min 1 ((0.5 * (pairCount paperCats rel : ℚ)) / (rel.card : ℚ))

/-! ### Semantic scorer (`semantic_scorer.py`)

The sentence-transformer model is external to the repository; it is
modelled as a function `sims : String → List ℚ` giving, for an encoded
text, its row of cosine similarities against the precomputed keyword
embeddings.  The combination formula applied to such a row is source
code and is embedded below. -/

/-- Insertion step of the ascending sort modelling `np.sort`. -/
def insertSorted (x : ℚ) : List ℚ → List ℚ
  | [] => [x]
  | y :: ys => if x ≤ y then x :: y :: ys else y :: insertSorted x ys

/-- Ascending sort (`np.sort`), structurally recursive. -/
def sortAsc (l : List ℚ) : List ℚ := l.foldr insertSorted []

/-- The row-combination formula shared by `score_paper_semantic` and
`score_papers_batch`: `0.7 * max(similarities) + 0.3 * mean(top-5)`,
clamped to [0, 1] (`np.sort` ascending, last `min 5 n` entries). -/
def semanticScoreOfSims (r : List ℚ) : ℚ :=
  match r with
  | [] => 0
  | h :: t =>
    let maxSim : ℚ := t.foldl max h
    let n := (h :: t).length
    let topK := min 5 n
    let sorted := sortAsc (h :: t)
    let topSims := sorted.drop (n - topK)
    let meanTop : ℚ := topSims.sum / (topK : ℚ)
    clamp01 (0.7 * maxSim + 0.3 * meanTop)

/-- The text a paper contributes to semantic scoring:
`f"{paper.title} {paper.summary}".strip()`. -/
def semText (p : Paper) : String := trimStr (p.title ++ " " ++ p.summary)

/-- Embeds `SemanticScorer.score_paper_semantic`: 0 when the model or keyword
embeddings are unavailable or the paper text is empty; otherwise the
combination formula on the paper text's similarity row. -/
def scorePaperSemantic (embOk : Bool) (sims : String → List ℚ) (p : Paper) : ℚ :=
  if ¬ embOk then 0
  else if semText p = "" then 0
  else semanticScoreOfSims (sims (semText p))

/-- Embeds `SemanticScorer.score_papers_batch`: `[]` on an empty batch, all-zero
scores when the model is unavailable; otherwise each paper's text (the
placeholder `"empty"` when blank) is encoded and run through the same
row formula. -/
def semScoreBatch (embOk : Bool) (sims : String → List ℚ)
    (papers : List Paper) : List ℚ :=
  if papers = [] then []
  else if ¬ embOk then List.replicate papers.length 0
  else papers.map (fun p =>
    let t := semText p
    semanticScoreOfSims (sims (if t = "" then "empty" else t)))

/-! ### Aggregator (`relevance_scorer.py`) -/

/-- Embeds `RelevanceScorer._calculate_semantic_score` (TF-IDF fallback): the
vectorizer and cosine similarity are external (`cosSim`), the source
returns `max(0.0, similarity)`. -/
def calcSemanticTfidf (cosSim : String → ℚ) (text : String) : ℚ :=
  max 0 (cosSim text)

/-- The combined scoring text: `f"{paper.title} {paper.summary}".lower()`. -/
def textOf (p : Paper) : String := toLowerStr (p.title ++ " " ++ p.summary)

/-- Embeds `RelevanceScorer.score_paper`: 0 for blank text; otherwise the weighted
sum of keyword, category and semantic components, clamped to [0, 1], with
weights (0.3, 0.25, 0.45) when the semantic scorer is in use and
(0.4, 0.3, 0.3) in the TF-IDF fallback mode. -/
def scorePaper (useSemantic embOk : Bool) (keywords : List String)
    (rel : Finset String) (sims : String → List ℚ) (cosSim : String → ℚ)
    (p : Paper) : ℚ :=
  let text := textOf p
  if trimStr text = "" then 0
  else
    let kw := calcKeywordScore keywords text
    let cat := calcCategoryScore rel p.categories
    if useSemantic then
      clamp01 (0.3 * kw + 0.25 * cat + 0.45 * scorePaperSemantic embOk sims p)
    else
      clamp01 (0.4 * kw + 0.3 * cat + 0.3 * calcSemanticTfidf cosSim text)

/-! ### Citation analyzer (`citation_analyzer.py`)

The three reference-notation regexes of `CitationAnalyzer.arxiv_patterns`
are embedded as deterministic matchers over character lists (the greedy
quantifiers of these particular patterns never require backtracking),
and `re.finditer`'s left-to-right non-overlapping scan is a fuel-bounded
loop (fuel = remaining length, enough since every step consumes at least
one character). -/

/-- Match `\d\x7b4\x7d\.\d\x7b4,5\x7d(?:v\d+)?` at the head of `cs`; on success
return the matched characters and the remainder. -/
def matchIdAt (cs : List Char) : Option (List Char × List Char) :=
  let d4 := cs.take 4
  if d4.length = 4 ∧ d4.all Char.isDigit then
    match cs.drop 4 with
    | '.' :: rest =>
      let ds := rest.takeWhile Char.isDigit
      let rest2 := rest.dropWhile Char.isDigit
      if 4 ≤ ds.length then
        let takeN := min ds.length 5
        let idDigits := ds.take takeN
        let rest3 := ds.drop takeN ++ rest2
        match rest3 with
        | 'v' :: r4 =>
          let vd := r4.takeWhile Char.isDigit
          if vd ≠ [] then
            some (d4 ++ '.' :: idDigits ++ 'v' :: vd, r4.dropWhile Char.isDigit)
          else some (d4 ++ '.' :: idDigits, rest3)
        | _ => some (d4 ++ '.' :: idDigits, rest3)
      else none
    | _ => none
  else none

/-- Match pattern `arXiv:(\d\x7b4\x7d\.\d\x7b4,5\x7d(?:v\d+)?)` at the head
(on lowercased text); the returned match is the captured group. -/
def matchPrefixedIdAt (cs : List Char) : Option (List Char × List Char) :=
  if cs.take 6 = "arxiv:".toList then matchIdAt (cs.drop 6) else none

/-- Match pattern `arXiv/(\w+/\d\x7b7\x7d)` at the head (on lowercased
text); the returned match is the captured group. -/
def matchOldIdAt (cs : List Char) : Option (List Char × List Char) :=
  if cs.take 6 = "arxiv/".toList then
    let w := (cs.drop 6).takeWhile isWordChar
    match (cs.drop 6).dropWhile isWordChar with
    | '/' :: r2 =>
      let d7 := r2.take 7
      if w ≠ [] ∧ d7.length = 7 ∧ d7.all Char.isDigit then
        some (w ++ '/' :: d7, r2.drop 7)
      else none
    | _ => none
  else none

/-- Embeds `re.finditer` for one pattern: scan left to right, collecting
non-overlapping matches, resuming after each match. -/
def scanAux (tryM : List Char → Option (List Char × List Char)) :
    ℕ → List Char → List (List Char)
  | 0, _ => []
  | _, [] => []
  | fuel + 1, c :: rest =>
    match tryM (c :: rest) with
    | some (m, r) => m :: scanAux tryM fuel r
    | none => scanAux tryM fuel rest

/-- All matches of one pattern in a character list. -/
def scanPattern (tryM : List Char → Option (List Char × List Char))
    (cs : List Char) : List (List Char) :=
  scanAux tryM cs.length cs

/-- Embeds `CitationAnalyzer.extract_arxiv_references`: the set of ids matched by
any of the three patterns in the lowercased title+summary, the paper's own
id excluded. -/
def extractArxivReferences (p : Paper) : Finset String :=
  let cs := (toLowerStr (p.title ++ " " ++ p.summary)).toList
  let ms := scanPattern matchPrefixedIdAt cs ++ scanPattern matchIdAt cs ++
    scanPattern matchOldIdAt cs
  ((ms.map (fun l => String.mk l)).filter (fun r => r ≠ p.id)).toFinset

/-- Embeds the `CitationData` dataclass: reference and citer id sets
with their cardinalities. -/
structure CitationData where
  paperId : String
  references : Finset String
  citedBy : Finset String
  referenceCount : ℕ
  citationCount : ℕ
  deriving DecidableEq

/-- The ids of the batch (`all_paper_ids`). -/
def allPaperIds (papers : List Paper) : Finset String :=
  (papers.map (fun p => p.id)).toFinset

/-- A paper's extracted references restricted to the batch
(`filtered_refs`). -/
def filteredRefs (papers : List Paper) (p : Paper) : Finset String :=
  (extractArxivReferences p).filter (fun r => r ∈ allPaperIds papers)

/-- The `paper_refs` dict: per id, the filtered references of the last
paper in the batch bearing that id (a later assignment overwrites). -/
def paperRefsOf (papers : List Paper) (pid : String) : Finset String :=
  match papers.reverse.find? (fun p => p.id = pid) with
  | some p => filteredRefs papers p
  | none => ∅

/-- The distinct ids of the batch, one dict key per id. -/
def uniqueIds (papers : List Paper) : List String :=
  (papers.map (fun p => p.id)).dedup

/-- The `cited_by` set of an id: the other dict keys whose reference set
contains it. -/
def citedByOf (papers : List Paper) (pid : String) : Finset String :=
  ((uniqueIds papers).filter
    (fun o => pid ∈ paperRefsOf papers o ∧ o ≠ pid)).toFinset

/-- The `CitationData` entry built for one id. -/
def mkCitationData (papers : List Paper) (pid : String) : CitationData :=
  { paperId := pid
    references := paperRefsOf papers pid
    citedBy := citedByOf papers pid
    referenceCount := (paperRefsOf papers pid).card
    citationCount := (citedByOf papers pid).card }

/-- Embeds `CitationAnalyzer.build_citation_network`: the dict from each batch id
to its citation data, modelled as an association list keyed by id. -/
def buildCitationNetwork (papers : List Paper) : List (String × CitationData) :=
  (uniqueIds papers).map (fun pid => (pid, mkCitationData papers pid))

/-- Embeds `max((data.citation_count for data in network.values()), default=1)`. -/
def maxCitations (net : List (String × CitationData)) : ℕ :=
  if net = [] then 1
  else (net.map (fun e => e.2.citationCount)).foldr max 0

/-- The citation count recorded in the network for an id, 0 when absent. -/
def citCountOf (net : List (String × CitationData)) (r : String) : ℕ :=
  match net.lookup r with
  | some d => d.citationCount
  | none => 0

/-- Embeds `CitationAnalyzer.get_citation_score`: 0 for an id outside the network;
otherwise `0.7 * (citer count / max citer count) + 0.3 * min(1, mean of
in-network referenced papers' citer counts / max citer count)`. -/
def getCitationScore (pid : String) (net : List (String × CitationData)) : ℚ :=
  match net.lookup pid with
  | none => 0
  | some data =>
    let maxCit := maxCitations net
    let citationScore : ℚ :=
      if 0 < maxCit then (data.citationCount : ℚ) / (maxCit : ℚ) else 0
    let refsInNet := data.references.filter (fun r => (net.lookup r).isSome)
    let referenceScore : ℚ :=
      if data.references.Nonempty then
        if refsInNet.Nonempty then
          let avg : ℚ :=
            (∑ r in refsInNet, (citCountOf net r : ℚ)) / (refsInNet.card : ℚ)
          if 0 < maxCit then min 1 (avg / (maxCit : ℚ)) else 0
        else 0
      else 0
    0.7 * citationScore + 0.3 * referenceScore

/-- The undirected neighbor set consulted by the BFS: references plus
citers of an id, empty for an id outside the network. -/
def nbrsOf (net : List (String × CitationData)) (cid : String) : Finset String :=
  match net.lookup cid with
  | some d => d.references ∪ d.citedBy
  | none => ∅

/-- One BFS level: all unvisited neighbors of the current level. -/
def bfsStep (net : List (String × CitationData))
    (visited current : Finset String) : Finset String :=
  (current.biUnion (nbrsOf net)) \ visited

/-- The BFS loop of `get_related_papers`: expand one level per remaining
hop, stopping early when a level is empty. -/
def bfsAux (net : List (String × CitationData)) :
    ℕ → Finset String → Finset String → Finset String → Finset String
  | 0, _, _, related => related
  | d + 1, visited, current, related =>
    let nl := bfsStep net visited current
    if nl = ∅ then related
    else bfsAux net d (visited ∪ nl) nl (related ∪ nl)

/-- Embeds `CitationAnalyzer.get_related_papers`: ids reachable from `pid` within
`maxDistance` undirected hops, the start id excluded; empty when `pid` is
not in the network. -/
def getRelatedPapers (pid : String) (net : List (String × CitationData))
    (maxDistance : ℕ) : Finset String :=
  if (net.lookup pid).isSome then bfsAux net maxDistance {pid} {pid} ∅
  else ∅

/-- Embeds `CitationAnalyzer.enhance_relevance_with_citations`: the base scores
unchanged on a length mismatch, a singleton or empty batch, or an empty
network; otherwise `0.8 * base + 0.2 * citation score` per paper. -/
def enhanceRelevance (papers : List Paper) (baseScores : List ℚ) : List ℚ :=
  if papers.length ≠ baseScores.length then baseScores
  else if papers.length < 2 then baseScores
  else
    let net := buildCitationNetwork papers
    if net = [] then baseScores
    else (papers.zip baseScores).map
      (fun pb => 0.8 * pb.2 + 0.2 * getCitationScore pb.1.id net)

/-- The base (pre-citation) scores of `score_papers_batch`: the batch
semantic path with weights 0.3/0.25/0.45 and per-paper blank-text guard,
or the per-paper fallback through `score_paper`. -/
def baseScores (useSemantic embOk : Bool) (keywords : List String)
    (rel : Finset String) (sims : String → List ℚ) (cosSim : String → ℚ)
    (papers : List Paper) : List ℚ :=
  if useSemantic then
    (papers.zip (semScoreBatch embOk sims papers)).map (fun pb =>
      let text := textOf pb.1
      if trimStr text = "" then 0
      else
        clamp01 (0.3 * calcKeywordScore keywords text +
          0.25 * calcCategoryScore rel pb.1.categories + 0.45 * pb.2))
  else papers.map (scorePaper false embOk keywords rel sims cosSim)

/-- Embeds `RelevanceScorer.score_papers_batch`: base scores via batch semantic
scoring (weights 0.3/0.25/0.45) or the per-paper fallback, then citation
enhancement when enabled and the batch has more than one paper. -/
def scorePapersBatch (useSemantic useCitations embOk : Bool)
    (keywords : List String) (rel : Finset String)
    (sims : String → List ℚ) (cosSim : String → ℚ)
    (papers : List Paper) : List ℚ :=
  if papers = [] then []
  else
    if useCitations ∧ 1 < papers.length then
      enhanceRelevance papers
        (baseScores useSemantic embOk keywords rel sims cosSim papers)
    else baseScores useSemantic embOk keywords rel sims cosSim papers

/-! ### Scorer construction (`RelevanceScorer.__init__`) -/

/-- The configuration a constructed scorer carries. -/
structure ScorerConfig where
  keywords : List String
  useSemantic : Bool
  useCitations : Bool
  deriving DecidableEq

/-- Embeds `RelevanceScorer.__init__`: an empty (falsy) `keywords` argument is
replaced by the configured default list; the semantic and citation
subsystems are kept only when their own construction succeeds; the only
failure path is the debug-only assertion on an empty effective keyword
list.  `none` models a raised error, `some` a constructed scorer. -/
def scorerInit (debugAsserts : Bool) (defaultKeywords keywords : List String)
    (useSemantic useCitations semanticOk citationsOk : Bool) :
    Option ScorerConfig :=
  let kws := if keywords = [] then defaultKeywords else keywords
  if debugAsserts ∧ kws = [] then none
  else some ⟨kws, useSemantic && semanticOk, useCitations && citationsOk⟩

/-! ### Spec-side formulas

For the claims comparing the code against the spec's stated formulas
(C7, C8), a second definition written from the spec's words, to be
proved equal to the one embedded from the source. -/

/-- Spec §4.1, written from the spec's words: per keyword, 0.8 on an exact
phrase occurrence plus `0.4 × |keyword words ∩ text words| / |keyword
words|` when the overlap is positive; sum, divide by the keyword count,
clamp to [0, 1]. -/
def keywordScoreSpec (keywords : List String) (text : String) : ℚ :=
  let textWords : Finset String := (wordsOf (toLowerStr text)).toFinset
  let total : ℚ := (keywords.map (fun kw =>
    let kwWords : Finset String := (wordsOf (toLowerStr kw)).toFinset
    (if strContains text (toLowerStr kw) then (0.8 : ℚ) else 0) +
    (if 0 < (kwWords ∩ textWords).card then
      0.4 * (((kwWords ∩ textWords).card : ℚ) / (kwWords.card : ℚ))
    else 0))).sum
  clamp01 (total / (keywords.length : ℚ))

/-- Spec §4.2, written from the spec's words: `min(1, |tags ∩ rel| / |rel|)`
on a direct hit, otherwise the clamp to [0, 1] of `0.5 × (number of
same-prefix pairs) / |rel|`; an empty tag list scores 0. -/
def categoryScoreSpec (rel : Finset String) (categories : List String) : ℚ :=
  if categories = [] then 0
  else
    let paperCats : Finset String := categories.toFinset
    if (paperCats ∩ rel).Nonempty then
      min 1 (((paperCats ∩ rel).card : ℚ) / (rel.card : ℚ))
    else
      clamp01 ((0.5 * (pairCount paperCats rel : ℚ)) / (rel.card : ℚ))

/-! ### Helper lemmas -/

attribute [local semireducible] Rat.add Rat.mul Rat.sub Rat.inv
  Rat.ofScientific

theorem clamp01_nonneg (x : ℚ) : 0 ≤ clamp01 x := le_max_left 0 _

theorem clamp01_le_one (x : ℚ) : clamp01 x ≤ 1 :=
  max_le (by norm_num) (min_le_left 1 x)

theorem toList_ne_nil {s : String} (h : s ≠ "") : s.toList ≠ [] := by
  intro hc
  apply h
  cases s with
  | mk d =>
    simp only [String.toList] at hc
    subst hc
    rfl

theorem toLowerStr_ne_empty {s : String} (h : s ≠ "") : toLowerStr s ≠ "" := by
  intro hc
  apply h
  cases s with
  | mk d =>
    have hd : d.map Char.toLower = [] := congrArg String.data hc
    rw [List.map_eq_nil_iff] at hd
    subst hd
    rfl

theorem strContains_empty (pat : String) (h : pat ≠ "") :
    strContains "" pat = false := by
  have hd : pat.toList ≠ [] := toList_ne_nil h
  cases hp : pat.toList with
  | nil => exact absurd hp hd
  | cons c cs =>
    simp only [strContains, hp]
    simp only [show ("" : String).toList = [] from rfl, List.tails,
      List.any_cons, List.any_nil, List.take_nil, Bool.or_false]
    rfl

/-! ### Shared concrete inputs for witnesses and counterexamples -/

/-- A similarity function assigning every text the single row `[0]`. -/
def simsZero : String → List ℚ := fun _ => [0]

/-- A similarity function assigning every text the single row `[1]`. -/
def simsOne : String → List ℚ := fun _ => [1]

/-- A TF-IDF cosine returning 0 for every text. -/
def cosZero : String → ℚ := fun _ => 0

/-- A paper whose title is the keyword `"x"` and whose tag matches. -/
def modePaper : Paper := ⟨"p1", "x", "", [], ["cs.AI"]⟩

/-- A paper with blank title and whitespace summary but a matching tag. -/
def blankPaper : Paper := ⟨"pb", "", " ", [], ["cs.AI"]⟩

/-! ### Claims -/

/-- C2, counterexample: constructing the scorer with an empty keyword list
does not fail — even with debug assertions active and both subsystems
available, a scorer is produced (the empty argument is falsy and is
replaced by the configured default keyword list). -/
theorem c2_counterexample :
    scorerInit true ["mechanistic interpretability"] [] true true true true ≠
      none := by decide

/-- C2, amended: constructing the scorer with an empty keyword list
succeeds whenever the configured default keyword list is non-empty; the
scorer produced carries the default keywords. -/
theorem c2_empty_keywords_fall_back :
    ∀ (debugAsserts : Bool) (defaultKeywords : List String)
      (useSemantic useCitations semanticOk citationsOk : Bool),
      defaultKeywords ≠ [] →
      scorerInit debugAsserts defaultKeywords [] useSemantic useCitations
          semanticOk citationsOk =
        some ⟨defaultKeywords, useSemantic && semanticOk,
          useCitations && citationsOk⟩ := by
  intro d dk us uc so co h
  simp [scorerInit, h]

/-- C2 witness: the amended statement at a concrete configuration. -/
theorem c2_empty_keywords_fall_back_witness :
    scorerInit true ["mechanistic interpretability"] [] true true true true =
      some ⟨["mechanistic interpretability"], true, true⟩ :=
  c2_empty_keywords_fall_back true ["mechanistic interpretability"]
    true true true true (by decide)

/-- C6: for a paper with non-blank text the final score is the clamp to
[0, 1] of the weighted component sum, with weights (0.3, 0.25, 0.45) in
semantic mode and (0.4, 0.3, 0.3) in the TF-IDF fallback mode; and the two
modes disagree on a concrete paper whose raw components coincide. -/
theorem c6_final_score_formula :
    (∀ (embOk : Bool) (keywords : List String) (rel : Finset String)
        (sims : String → List ℚ) (cosSim : String → ℚ) (p : Paper),
      trimStr (textOf p) ≠ "" →
      scorePaper true embOk keywords rel sims cosSim p =
          clamp01 (0.3 * calcKeywordScore keywords (textOf p) +
            0.25 * calcCategoryScore rel p.categories +
            0.45 * scorePaperSemantic embOk sims p) ∧
      scorePaper false embOk keywords rel sims cosSim p =
          clamp01 (0.4 * calcKeywordScore keywords (textOf p) +
            0.3 * calcCategoryScore rel p.categories +
            0.3 * calcSemanticTfidf cosSim (textOf p))) ∧
    scorePaper true true ["x"] {"cs.AI"} simsZero cosZero modePaper ≠
      scorePaper false true ["x"] {"cs.AI"} simsZero cosZero modePaper := by
  constructor
  · intro embOk keywords rel sims cosSim p h
    constructor <;> simp [scorePaper, h]
  · decide

/-- C6 witness: the semantic-mode formula evaluated on a concrete paper. -/
theorem c6_final_score_formula_witness :
    scorePaper true true ["x"] {"cs.AI"} simsZero cosZero modePaper =
      clamp01 (0.3 * calcKeywordScore ["x"] (textOf modePaper) +
        0.25 * calcCategoryScore {"cs.AI"} modePaper.categories +
        0.45 * scorePaperSemantic true simsZero modePaper) :=
  (c6_final_score_formula.1 true ["x"] {"cs.AI"} simsZero cosZero modePaper
    (by decide)).1

/-- C10: a paper whose combined title-plus-summary text is blank scores
exactly 0 in every configuration; in particular, on a concrete blank paper
whose tags exactly match the relevant set the category component would be
1, yet the final score is 0. -/
theorem c10_blank_paper_scores_zero :
    (∀ (useSemantic embOk : Bool) (keywords : List String)
        (rel : Finset String) (sims : String → List ℚ) (cosSim : String → ℚ)
        (p : Paper),
      trimStr (textOf p) = "" →
      scorePaper useSemantic embOk keywords rel sims cosSim p = 0) ∧
    scorePaper true true ["x"] {"cs.AI"} simsOne cosZero blankPaper = 0 ∧
    calcCategoryScore {"cs.AI"} blankPaper.categories = 1 := by
  refine ⟨fun _ _ _ _ _ _ p h => by simp [scorePaper, h], by decide, by decide⟩

/-- C10 witness: the universally quantified part applied to the concrete
blank paper. -/
theorem c10_blank_paper_scores_zero_witness :
    scorePaper false true ["x"] {"cs.AI"} simsOne cosZero blankPaper = 0 :=
  c10_blank_paper_scores_zero.1 false true ["x"] {"cs.AI"} simsOne cosZero
    blankPaper (by decide)

/-- C7, counterexample: with the empty string as a keyword, the keyword
component on empty text is 0.8 (the empty phrase occurs in every text),
not 0. -/
theorem c7_counterexample : calcKeywordScore [""] "" ≠ 0 := by decide

/-- C7, amended: the keyword component equals the spec's formula for every
text and non-empty keyword list, and empty text yields 0 provided no
keyword is itself the empty string. -/
theorem c7_keyword_score_formula :
    ∀ (keywords : List String) (text : String), keywords ≠ [] →
      calcKeywordScore keywords text = keywordScoreSpec keywords text ∧
      ((∀ kw ∈ keywords, kw ≠ "") → calcKeywordScore keywords "" = 0) := by
  intro keywords text _hne
  constructor
  · simp only [calcKeywordScore, keywordScoreSpec, clamp01]
    rw [max_eq_right]
    apply le_min (by norm_num)
    apply div_nonneg _ (by positivity)
    apply List.sum_nonneg
    intro x hx
    obtain ⟨kw, _, rfl⟩ := List.mem_map.mp hx
    apply add_nonneg
    · split <;> norm_num
    · split <;> positivity
  · intro hkw
    simp only [calcKeywordScore]
    have hz : ∀ x ∈ keywords.map (fun kw =>
        (if strContains "" (toLowerStr kw) then (0.8 : ℚ) else 0) +
        (if 0 < ((wordsOf (toLowerStr kw)).toFinset ∩
            (wordsOf (toLowerStr "")).toFinset).card then
          0.4 * ((((wordsOf (toLowerStr kw)).toFinset ∩
            (wordsOf (toLowerStr "")).toFinset).card : ℚ) /
            ((wordsOf (toLowerStr kw)).toFinset.card : ℚ))
        else 0)), x = 0 := by
      intro x hx
      obtain ⟨kw, hkwmem, rfl⟩ := List.mem_map.mp hx
      have h1 : strContains "" (toLowerStr kw) = false :=
        strContains_empty _ (toLowerStr_ne_empty (hkw kw hkwmem))
      have h2 : (wordsOf (toLowerStr "")).toFinset = (∅ : Finset String) := by
        decide
      rw [h1, h2]
      simp
    rw [List.sum_eq_zero hz]
    norm_num

/-- C7 witness: the amended statement at a concrete keyword list. -/
theorem c7_keyword_score_formula_witness :
    calcKeywordScore ["machine learning"] "deep learning" =
      keywordScoreSpec ["machine learning"] "deep learning" ∧
    calcKeywordScore ["machine learning"] "" = 0 :=
  ⟨(c7_keyword_score_formula ["machine learning"] "deep learning"
      (by decide)).1,
    (c7_keyword_score_formula ["machine learning"] "anything"
      (by decide)).2 (by decide)⟩

/-- C8: the category component equals the spec's formula for every
non-empty relevant set — `min(1, |tags ∩ rel| / |rel|)` on a direct match,
the clamped partial-credit value otherwise — and an empty tag list yields
0. -/
theorem c8_category_score_formula :
    ∀ (rel : Finset String) (categories : List String), rel.Nonempty →
      calcCategoryScore rel categories = categoryScoreSpec rel categories ∧
      (categories = [] → calcCategoryScore rel categories = 0) := by
  intro rel cats _hrel
  refine ⟨?_, fun hc => by simp [calcCategoryScore, hc]⟩
  by_cases hc : cats = []
  · simp [calcCategoryScore, categoryScoreSpec, hc]
  · simp only [calcCategoryScore, categoryScoreSpec, if_neg hc]
    rw [Finset.inter_comm rel cats.toFinset]
    by_cases hpos : 0 < (cats.toFinset ∩ rel).card
    · rw [if_pos hpos, if_pos (Finset.card_pos.mp hpos)]
    · rw [if_neg hpos, if_neg (fun hne => hpos (Finset.card_pos.mpr hne))]
      simp only [clamp01]
      rw [max_eq_right]
      apply le_min (by norm_num)
      positivity

/-- C8 witness: the formula at a concrete relevant set, on both a direct
match and the partial-credit fallback. -/
theorem c8_category_score_formula_witness :
    calcCategoryScore {"cs.AI", "stat.ML"} ["cs.LG"] =
      categoryScoreSpec {"cs.AI", "stat.ML"} ["cs.LG"] ∧
    calcCategoryScore {"cs.AI", "stat.ML"} [] = 0 :=
  ⟨(c8_category_score_formula {"cs.AI", "stat.ML"} ["cs.LG"]
      (by decide)).1,
    (c8_category_score_formula {"cs.AI", "stat.ML"} [] (by decide)).2 rfl⟩

/-- C3, counterexample: for a paper with blank title and summary, the
single-item semantic scorer returns 0 while the batch scorer encodes the
placeholder text `"empty"` and returns its (generally nonzero) score. -/
theorem c3_counterexample :
    (semScoreBatch true simsOne [blankPaper])[0]? ≠
      some (scorePaperSemantic true simsOne blankPaper) := by decide

/-- C3, amended: batch and single-item semantic scoring agree on every
paper whose combined title-plus-summary text is non-blank after
trimming (for blank papers the single-item path returns 0 while the
batch path scores the placeholder text `"empty"`). -/
theorem c3_batch_matches_single :
    ∀ (embOk : Bool) (sims : String → List ℚ) (papers : List Paper) (i : ℕ)
      (p : Paper), papers[i]? = some p → semText p ≠ "" →
      (semScoreBatch embOk sims papers)[i]? =
        some (scorePaperSemantic embOk sims p) := by
  intro embOk sims papers i p hp ht
  have hne : papers ≠ [] := by rintro rfl; simp at hp
  have hi : i < papers.length := by
    by_contra hcon
    push_neg at hcon
    rw [List.getElem?_eq_none hcon] at hp
    exact Option.noConfusion hp
  cases embOk with
  | false =>
    simp [semScoreBatch, scorePaperSemantic, hne, List.getElem?_replicate, hi]
  | true =>
    simp [semScoreBatch, scorePaperSemantic, hne, List.getElem?_map, hp, ht]

/-- C3 witness: batch and single scores agree on a concrete non-blank
paper. -/
theorem c3_batch_matches_single_witness :
    (semScoreBatch true simsOne [modePaper])[0]? =
      some (scorePaperSemantic true simsOne modePaper) :=
  c3_batch_matches_single true simsOne [modePaper] 0 modePaper (by decide)
    (by decide)

/-! ### BFS helper lemmas -/

theorem bfsAux_mono (net : List (String × CitationData)) :
    ∀ (d : ℕ) (v c r : Finset String),
      bfsAux net d v c r ⊆ bfsAux net (d + 1) v c r := by
  intro d
  induction d with
  | zero =>
    intro v c r
    by_cases hnl : bfsStep net v c = ∅ <;>
      simp [bfsAux, hnl, Finset.subset_union_left]
  | succ d ih =>
    intro v c r
    by_cases hnl : bfsStep net v c = ∅
    · simp [bfsAux, hnl]
    · simp only [bfsAux, if_neg hnl]
      exact ih _ _ _

theorem bfsAux_start_not_mem (net : List (String × CitationData))
    (pid : String) : ∀ (d : ℕ) (v c r : Finset String),
      pid ∈ v → pid ∉ r → pid ∉ bfsAux net d v c r := by
  intro d
  induction d with
  | zero => intro v c r _ hr; simpa [bfsAux] using hr
  | succ d ih =>
    intro v c r hv hr
    by_cases hnl : bfsStep net v c = ∅
    · simpa [bfsAux, hnl] using hr
    · simp only [bfsAux, if_neg hnl]
      apply ih
      · exact Finset.mem_union_left _ hv
      · intro hmem
        rcases Finset.mem_union.mp hmem with hm | hm
        · exact hr hm
        · exact (Finset.mem_sdiff.mp hm).2 hv

/-- A two-node network with a single reference edge. -/
def lineNet : List (String × CitationData) :=
  [("a", ⟨"a", {"b"}, ∅, 1, 0⟩), ("b", ⟨"b", ∅, {"a"}, 0, 1⟩)]

/-- The data of a node listing itself among its own references. -/
def selfLoopData : CitationData := ⟨"a", {"a"}, ∅, 1, 0⟩

/-- A one-node network whose node has a self-loop reference edge. -/
def selfLoopNet : List (String × CitationData) := [("a", selfLoopData)]

/-- C5, counterexample: on a graph whose start node lists itself among its
references, the distance-1 result is empty, not the union of the start
paper's reference and cited-by sets. -/
theorem c5_counterexample :
    getRelatedPapers "a" selfLoopNet 1 ≠
      selfLoopData.references ∪ selfLoopData.citedBy := by decide

/-- C5, amended: for every graph, start id and distance, the BFS result at
distance d is contained in the result at distance d+1, distance 0 yields
the empty set, the start id never appears in the result, and the
distance-1 result is exactly the union of the start node's reference and
cited-by sets with the start id removed. -/
theorem c5_related_papers_bfs :
    ∀ (net : List (String × CitationData)) (pid : String) (d : ℕ),
      getRelatedPapers pid net d ⊆ getRelatedPapers pid net (d + 1) ∧
      getRelatedPapers pid net 0 = ∅ ∧
      pid ∉ getRelatedPapers pid net d ∧
      (∀ data, net.lookup pid = some data →
        getRelatedPapers pid net 1 =
          (data.references ∪ data.citedBy) \ {pid}) := by
  intro net pid d
  refine ⟨?_, ?_, ?_, ?_⟩
  · by_cases hl : (net.lookup pid).isSome
    · simp only [getRelatedPapers, if_pos hl]
      exact bfsAux_mono net d {pid} {pid} ∅
    · simp [getRelatedPapers, hl]
  · by_cases hl : (net.lookup pid).isSome <;> simp [getRelatedPapers, hl, bfsAux]
  · by_cases hl : (net.lookup pid).isSome
    · simp only [getRelatedPapers, if_pos hl]
      exact bfsAux_start_not_mem net pid d {pid} {pid} ∅
        (Finset.mem_singleton_self pid) (Finset.not_mem_empty pid)
    · simp [getRelatedPapers, hl]
  · intro data hdata
    have hl : (net.lookup pid).isSome := by simp [hdata]
    simp only [getRelatedPapers, if_pos hl]
    have hstep : bfsStep net {pid} {pid} =
        (data.references ∪ data.citedBy) \ {pid} := by
      simp [bfsStep, Finset.singleton_biUnion, nbrsOf, hdata]
    by_cases h0 : (data.references ∪ data.citedBy) \ {pid} = ∅
    · simp [bfsAux, hstep, h0]
    · simp [bfsAux, hstep, h0]

/-- C5 witness: the amended distance-1 characterization on a concrete
two-node graph. -/
theorem c5_related_papers_bfs_witness :
    getRelatedPapers "a" lineNet 1 =
      ((⟨"a", {"b"}, ∅, 1, 0⟩ : CitationData).references ∪
        (⟨"a", {"b"}, ∅, 1, 0⟩ : CitationData).citedBy) \ {"a"} :=
  (c5_related_papers_bfs lineNet "a" 1).2.2.2 ⟨"a", {"b"}, ∅, 1, 0⟩ (by decide)

/-! ### Citation-graph helper lemmas -/

theorem self_not_mem_extract (p : Paper) : p.id ∉ extractArxivReferences p := by
  simp [extractArxivReferences, List.mem_filter]

theorem self_not_mem_paperRefs (papers : List Paper) (pid : String) :
    pid ∉ paperRefsOf papers pid := by
  unfold paperRefsOf
  cases hf : papers.reverse.find? (fun p => p.id = pid) with
  | none => exact Finset.not_mem_empty pid
  | some p =>
    have hp : p.id = pid := by simpa using List.find?_some hf
    intro hmem
    have hext : pid ∈ extractArxivReferences p :=
      (Finset.mem_filter.mp hmem).1
    rw [← hp] at hext
    exact self_not_mem_extract p hext

theorem mem_network_elim {papers : List Paper} {a : String}
    {da : CitationData} (h : (a, da) ∈ buildCitationNetwork papers) :
    a ∈ uniqueIds papers ∧ da = mkCitationData papers a := by
  obtain ⟨x, hx, hxe⟩ := List.mem_map.mp h
  obtain ⟨rfl, rfl⟩ := Prod.mk.injEq .. |>.mp hxe
  exact ⟨hx, rfl⟩

/-- C4: in every network built from a batch, an id b lies in a's reference
set exactly when a lies in b's cited-by set, and no id lies in its own
reference set. -/
theorem c4_bidirectional_no_self_citation :
    ∀ (papers : List Paper) (a b : String) (da db : CitationData),
      (a, da) ∈ buildCitationNetwork papers →
      (b, db) ∈ buildCitationNetwork papers →
      (b ∈ da.references ↔ a ∈ db.citedBy) ∧ a ∉ da.references := by
  intro papers a b da db ha hb
  obtain ⟨haU, rfl⟩ := mem_network_elim ha
  obtain ⟨_, rfl⟩ := mem_network_elim hb
  simp only [mkCitationData]
  refine ⟨⟨fun hba => ?_, fun hab => ?_⟩, self_not_mem_paperRefs papers a⟩
  · have hne : a ≠ b := by
      rintro rfl
      exact self_not_mem_paperRefs papers a hba
    simp only [citedByOf, List.mem_toFinset, List.mem_filter]
    exact ⟨haU, by simpa using ⟨hba, hne⟩⟩
  · simp only [citedByOf, List.mem_toFinset, List.mem_filter] at hab
    have := hab.2
    simp only [decide_eq_true_eq] at this
    exact this.1

/-- A paper whose summary references `refPaperB` by arXiv id. -/
def refPaperA : Paper :=
  ⟨"1111.2222", "On things", "builds on 3333.4444", [], []⟩

/-- A paper cited by `refPaperA`. -/
def refPaperB : Paper := ⟨"3333.4444", "Other", "no references here", [], []⟩

/-- C4 witness: bidirectionality and self-exclusion on a concrete
two-paper batch with one extracted reference. -/
theorem c4_bidirectional_no_self_citation_witness :
    (("3333.4444" : String) ∈
        (mkCitationData [refPaperA, refPaperB] "1111.2222").references ↔
      ("1111.2222" : String) ∈
        (mkCitationData [refPaperA, refPaperB] "3333.4444").citedBy) ∧
    ("1111.2222" : String) ∉
      (mkCitationData [refPaperA, refPaperB] "1111.2222").references :=
  c4_bidirectional_no_self_citation [refPaperA, refPaperB]
    "1111.2222" "3333.4444"
    (mkCitationData [refPaperA, refPaperB] "1111.2222")
    (mkCitationData [refPaperA, refPaperB] "3333.4444")
    (by decide) (by decide)

/-- C9: with matching lengths and at least two papers each enhanced score
is `0.8 * base + 0.2 * citation score`; on a length mismatch or a batch of
fewer than two papers the base scores are returned unchanged. -/
theorem c9_citation_enhancement :
    ∀ (papers : List Paper) (base : List ℚ),
      (papers.length = base.length → 2 ≤ papers.length →
        ∀ (i : ℕ) (p : Paper) (b : ℚ),
          papers[i]? = some p → base[i]? = some b →
          (enhanceRelevance papers base)[i]? =
            some (0.8 * b + 0.2 * getCitationScore p.id
              (buildCitationNetwork papers))) ∧
      (papers.length ≠ base.length ∨ papers.length < 2 →
        enhanceRelevance papers base = base) := by
  intro papers base
  constructor
  · intro hlen h2 i p b hp hb
    have hne : papers ≠ [] := by rintro rfl; simp at h2
    have hnet : buildCitationNetwork papers ≠ [] := by
      simpa [buildCitationNetwork, uniqueIds, List.dedup_eq_nil,
        List.map_eq_nil_iff] using hne
    simp only [enhanceRelevance, if_neg (not_ne_iff.mpr hlen),
      if_neg (not_lt.mpr h2), if_neg hnet]
    have hz : (papers.zip base)[i]? = some (p, b) :=
      List.getElem?_zip_eq_some.mpr ⟨hp, hb⟩
    rw [List.getElem?_map, hz]
    rfl
  · intro h
    rcases h with h | h
    · simp [enhanceRelevance, h]
    · by_cases heq : papers.length = base.length
      · simp only [enhanceRelevance, if_neg (not_ne_iff.mpr heq), if_pos h]
      · simp [enhanceRelevance, heq]

/-- C9 witness: the enhancement formula on a concrete two-paper batch. -/
theorem c9_citation_enhancement_witness :
    (enhanceRelevance [refPaperA, refPaperB] [1, 1/2])[0]? =
      some (0.8 * 1 + 0.2 * getCitationScore "1111.2222"
        (buildCitationNetwork [refPaperA, refPaperB])) :=
  (c9_citation_enhancement [refPaperA, refPaperB] [1, 1/2]).1 rfl
    (by decide) 0 refPaperA 1 rfl rfl

/-! ### Bound lemmas for the batch pipeline -/

theorem lookup_mem {net : List (String × CitationData)} {pid : String}
    {data : CitationData} (h : net.lookup pid = some data) :
    (pid, data) ∈ net := by
  induction net with
  | nil => simp [List.lookup] at h
  | cons e t ih =>
    rw [List.lookup] at h
    by_cases hk : pid == e.1
    · simp only [hk] at h
      obtain rfl : e.2 = data := Option.some.inj h
      have hpe : pid = e.1 := by simpa using hk
      subst hpe
      rw [Prod.mk.eta]
      exact List.mem_cons_self _ _
    · have hk2 : (pid == e.1) = false := by simpa using hk
      simp only [hk2] at h
      exact List.mem_cons_of_mem _ (ih h)

theorem mem_le_foldr_max {l : List ℕ} {a : ℕ} (h : a ∈ l) :
    a ≤ l.foldr max 0 := by
  induction l with
  | nil => cases h
  | cons x t ih =>
    rcases List.mem_cons.mp h with rfl | h2
    · exact le_max_left _ _
    · exact le_trans (ih h2) (le_max_right _ _)

theorem getCitationScore_bounds (pid : String)
    (net : List (String × CitationData)) :
    0 ≤ getCitationScore pid net ∧ getCitationScore pid net ≤ 1 := by
  unfold getCitationScore
  cases hl : net.lookup pid with
  | none => norm_num
  | some data =>
    have hmem : (pid, data) ∈ net := lookup_mem hl
    have hne : net ≠ [] := List.ne_nil_of_mem hmem
    have hcount : data.citationCount ≤ maxCitations net := by
      unfold maxCitations
      rw [if_neg hne]
      exact mem_le_foldr_max (List.mem_map.mpr ⟨(pid, data), hmem, rfl⟩)
    have hcs : 0 ≤ (if 0 < maxCitations net then
        (data.citationCount : ℚ) / (maxCitations net : ℚ) else 0) ∧
        (if 0 < maxCitations net then
          (data.citationCount : ℚ) / (maxCitations net : ℚ) else 0) ≤ 1 := by
      by_cases hM : 0 < maxCitations net
      · rw [if_pos hM]
        constructor
        · positivity
        · rw [div_le_one (by exact_mod_cast hM)]
          exact_mod_cast hcount
      · rw [if_neg hM]
        norm_num
    have hrs : 0 ≤ (if data.references.Nonempty then
        (if (data.references.filter
            (fun r => (net.lookup r).isSome)).Nonempty then
          (if 0 < maxCitations net then
            min 1 (((∑ r in data.references.filter
                (fun r => (net.lookup r).isSome),
              (citCountOf net r : ℚ)) /
                ((data.references.filter
                  (fun r => (net.lookup r).isSome)).card : ℚ)) /
              (maxCitations net : ℚ))
          else 0)
        else 0)
      else 0) ∧ (if data.references.Nonempty then
        (if (data.references.filter
            (fun r => (net.lookup r).isSome)).Nonempty then
          (if 0 < maxCitations net then
            min 1 (((∑ r in data.references.filter
                (fun r => (net.lookup r).isSome),
              (citCountOf net r : ℚ)) /
                ((data.references.filter
                  (fun r => (net.lookup r).isSome)).card : ℚ)) /
              (maxCitations net : ℚ))
          else 0)
        else 0)
      else 0) ≤ 1 := by
      refine ⟨?_, ?_⟩ <;>
        · split
          · split
            · split
              · first
                | exact le_min (by norm_num) (by positivity)
                | exact min_le_left _ _
              · norm_num
            · norm_num
          · norm_num
    constructor
    · have := hcs.1
      have := hrs.1
      nlinarith
    · have := hcs.2
      have := hrs.2
      nlinarith

theorem semScoreBatch_length (embOk : Bool) (sims : String → List ℚ)
    (papers : List Paper) :
    (semScoreBatch embOk sims papers).length = papers.length := by
  unfold semScoreBatch
  by_cases h : papers = []
  · simp [h]
  · by_cases he : embOk <;> simp [h, he]

theorem scorePaper_bounds (us eo : Bool) (kws : List String)
    (rel : Finset String) (sims : String → List ℚ) (cos : String → ℚ)
    (p : Paper) :
    0 ≤ scorePaper us eo kws rel sims cos p ∧
      scorePaper us eo kws rel sims cos p ≤ 1 := by
  unfold scorePaper
  by_cases ht : trimStr (textOf p) = ""
  · simp [ht]
  · by_cases hu : us <;> simp [ht, hu, clamp01_nonneg, clamp01_le_one]

theorem baseScores_length (us eo : Bool) (kws : List String)
    (rel : Finset String) (sims : String → List ℚ) (cos : String → ℚ)
    (papers : List Paper) :
    (baseScores us eo kws rel sims cos papers).length = papers.length := by
  unfold baseScores
  by_cases hu : us <;>
    simp [hu, List.length_zip, semScoreBatch_length, min_self]

theorem baseScores_bounds (us eo : Bool) (kws : List String)
    (rel : Finset String) (sims : String → List ℚ) (cos : String → ℚ)
    (papers : List Paper) :
    ∀ x ∈ baseScores us eo kws rel sims cos papers, 0 ≤ x ∧ x ≤ 1 := by
  intro x hx
  unfold baseScores at hx
  by_cases hu : us
  · rw [if_pos hu] at hx
    obtain ⟨pb, _, rfl⟩ := List.mem_map.mp hx
    by_cases ht : trimStr (textOf pb.1) = ""
    · simp [ht]
    · simp [ht, clamp01_nonneg, clamp01_le_one]
  · rw [if_neg hu] at hx
    obtain ⟨p, _, rfl⟩ := List.mem_map.mp hx
    exact scorePaper_bounds false eo kws rel sims cos p

theorem enhanceRelevance_length (papers : List Paper) (base : List ℚ) :
    (enhanceRelevance papers base).length = base.length := by
  unfold enhanceRelevance
  by_cases h1 : papers.length ≠ base.length
  · rw [if_pos h1]
  · rw [if_neg h1]
    push_neg at h1
    by_cases h2 : papers.length < 2
    · rw [if_pos h2]
    · rw [if_neg h2]
      by_cases h3 : buildCitationNetwork papers = []
      · rw [if_pos h3]
      · rw [if_neg h3]
        simp [List.length_zip, h1, min_self]

theorem enhanceRelevance_bounds (papers : List Paper) (base : List ℚ)
    (hb : ∀ x ∈ base, 0 ≤ x ∧ x ≤ 1) :
    ∀ x ∈ enhanceRelevance papers base, 0 ≤ x ∧ x ≤ 1 := by
  intro x hx
  unfold enhanceRelevance at hx
  by_cases h1 : papers.length ≠ base.length
  · exact hb x (by rwa [if_pos h1] at hx)
  · rw [if_neg h1] at hx
    by_cases h2 : papers.length < 2
    · exact hb x (by rwa [if_pos h2] at hx)
    · rw [if_neg h2] at hx
      by_cases h3 : buildCitationNetwork papers = []
      · exact hb x (by rwa [if_pos h3] at hx)
      · rw [if_neg h3] at hx
        obtain ⟨pb, hmem, rfl⟩ := List.mem_map.mp hx
        have hbs := hb pb.2 (List.of_mem_zip hmem).2
        have hcs := getCitationScore_bounds pb.1.id
          (buildCitationNetwork papers)
        constructor
        · nlinarith [hbs.1, hcs.1]
        · nlinarith [hbs.2, hcs.2]

/-- C1: for every batch and every flag configuration the batch scorer
returns one score per input paper, and every returned score lies in
[0, 1] (keyword list and relevant-category set non-empty, per the
configuration contract). -/
theorem c1_batch_length_and_bounds :
    ∀ (useSemantic useCitations embOk : Bool) (keywords : List String)
      (rel : Finset String) (sims : String → List ℚ) (cosSim : String → ℚ)
      (papers : List Paper), keywords ≠ [] → rel.Nonempty →
      (scorePapersBatch useSemantic useCitations embOk keywords rel sims
          cosSim papers).length = papers.length ∧
      ∀ s ∈ scorePapersBatch useSemantic useCitations embOk keywords rel
          sims cosSim papers, 0 ≤ s ∧ s ≤ 1 := by
  intro us uc eo kws rel sims cos papers _hk _hr
  by_cases hp : papers = []
  · subst hp
    simp [scorePapersBatch]
  · unfold scorePapersBatch
    rw [if_neg hp]
    by_cases hc : uc ∧ 1 < papers.length
    · rw [if_pos hc]
      constructor
      · rw [enhanceRelevance_length]
        exact baseScores_length us eo kws rel sims cos papers
      · exact enhanceRelevance_bounds _ _
          (baseScores_bounds us eo kws rel sims cos papers)
    · rw [if_neg hc]
      exact ⟨baseScores_length us eo kws rel sims cos papers,
        baseScores_bounds us eo kws rel sims cos papers⟩

/-- C1 witness: the batch scorer on a concrete two-paper batch returns
exactly two scores. -/
theorem c1_batch_length_and_bounds_witness :
    (scorePapersBatch true true true ["x"] {"cs.AI"} simsZero cosZero
        [refPaperA, refPaperB]).length = [refPaperA, refPaperB].length :=
  (c1_batch_length_and_bounds true true true ["x"] {"cs.AI"} simsZero
    cosZero [refPaperA, refPaperB] (by decide) (by decide)).1

end ArxivReader
